import Mathlib

/-!
A shallow embedding of the uvbump dependency-version reconciliation core
(`src/uvbump/uv.py`, `src/uvbump/npm.py`, `src/uvbump/core.py`,
`src/uvbump/__main__.py`).

Strings are modelled as `List Char`.  External effects (subprocess
invocations, file reads, `json.loads`) are modelled as explicit inputs:
a subprocess outcome is `Except Unit σ` (`.error` = the caught
`FileNotFoundError`/`SubprocessError`, `.ok` = the captured stdout), and
the result of applying `json.loads` to a captured stdout is
`Except Unit Json` (`.error` = `json.JSONDecodeError`).  A Python
function that can raise an uncaught exception is embedded with result
type `Except PyExc _`.
-/

deriving instance DecidableEq for Except

/-- Strings of the embedded program. -/
abbrev Str := List Char

/-- Python exceptions that the embedded code can raise. -/
inductive PyExc where
  | fileNotFoundError
  | unknownPackageVersionSchemeError
  | unsupportedPackageTypeError
  | valueError
  | jsonDecodeError
  | attributeError
  | typeError
deriving DecidableEq, Repr

/-- Characters treated as whitespace by Python's `str.strip()` (the subset
relevant here). -/
def isSpaceChar (c : Char) : Bool :=
  c == ' ' || c == '\t' || c == '\n' || c == '\r'

/-- Python `s.strip()`: remove leading and trailing whitespace. -/
def stripStr (s : Str) : Str :=
  ((s.dropWhile isSpaceChar).reverse.dropWhile isSpaceChar).reverse

/-- Leftmost occurrence of `pat` in `s`: `some (before, after)` with
`s = before ++ pat ++ after` and no occurrence of `pat` starting inside
`before`. -/
def splitOnce (pat : Str) : Str → Option (Str × Str)
  | [] => none
  | c :: cs =>
    if pat.isPrefixOf (c :: cs) then some ([], (c :: cs).drop pat.length)
    else (splitOnce pat cs).map (fun p => (c :: p.1, p.2))

/-- Python `pat in s` (substring containment). -/
def containsSub (pat : Str) : Str → Bool
  | [] => pat.isPrefixOf []
  | c :: cs => pat.isPrefixOf (c :: cs) || containsSub pat cs

/-- Fuel-indexed worker for Python `s.split(pat)`: repeatedly split off the
leftmost occurrence of `pat`.  Each step strictly shortens the string, so
`s.length` fuel is always sufficient; at fuel 0 the remaining string is
empty and is returned unsplit, exactly as the fuelless recursion would. -/
def pySplitFuel (pat : Str) : Nat → Str → List Str
  | 0, s => [s]
  | fuel + 1, s =>
    match splitOnce pat s with
    | none => [s]
    | some (b, a) => b :: pySplitFuel pat fuel a

/-- Python `s.split(pat)` for a non-empty separator `pat`. -/
def pySplit (pat : Str) (s : Str) : List Str :=
  if pat = [] then [s] else pySplitFuel pat s.length s

/-- Join a list of pieces with separator `pat`: the inverse of `pySplit`
(Python `pat.join(parts)`). -/
def joinWith (pat : Str) : List Str → Str
  | [] => []
  | [x] => x
  | x :: y :: rest => x ++ pat ++ joinWith pat (y :: rest)

/-- Python `s.replace(pat, repl)` (replace every occurrence). -/
def pyReplace (pat repl s : Str) : Str :=
  joinWith repl (pySplit pat s)

/-- Python `listing.split(',')[0]`: the pre-comma portion of a listing. -/
def preComma (listing : Str) : Str := listing.takeWhile (· ≠ ',')

/-- The operator-selection chain of `split_package_from_version`
(`uv.py` lines 19–31): the first of `>=`, `<=`, `==`, `<`, `>` — in that
textual order of the `if`/`elif` chain — contained in the pre-comma text. -/
def selectOp (cleaned : Str) : Option Str :=
  if containsSub ['>', '='] cleaned then some ['>', '=']
  else if containsSub ['<', '='] cleaned then some ['<', '=']
  else if containsSub ['=', '='] cleaned then some ['=', '=']
  else if containsSub ['<'] cleaned then some ['<']
  else if containsSub ['>'] cleaned then some ['>']
  else none

/-- `uv.py` `split_package_from_version`: keep only the text before the
first comma, pick the split operator by the `if`/`elif` chain, then
`package_name, version = cleaned_listing.split(split_by)` — which raises
`ValueError` unless the split yields exactly two parts, and
`UnknownPackageVersionSchemeError` when no operator was found. -/
def split_package_from_version (listing : Str) : Except PyExc (Str × Str) :=
  let cleaned := preComma listing
  match selectOp cleaned with
  | none => .error .unknownPackageVersionSchemeError
  | some op =>
    match pySplit op cleaned with
    | [packageName, version] => .ok (packageName, version)
    | _ => .error .valueError

/-- `npm.py` `_normalize_spec`: strip the first matching leading marker
from `^`, `~`, `>=`, `<=`, `>`, `<`, `=` (tried in that order). -/
def _normalize_spec (spec : Str) : Str :=
  if (['^'] : Str).isPrefixOf spec then spec.drop 1
  else if (['~'] : Str).isPrefixOf spec then spec.drop 1
  else if (['>', '='] : Str).isPrefixOf spec then spec.drop 2
  else if (['<', '='] : Str).isPrefixOf spec then spec.drop 2
  else if (['>'] : Str).isPrefixOf spec then spec.drop 1
  else if (['<'] : Str).isPrefixOf spec then spec.drop 1
  else if (['='] : Str).isPrefixOf spec then spec.drop 1
  else spec

/-- JSON values as produced by `json.loads` (numbers as integers; floats
do not occur in the outputs this tool consumes). -/
inductive Json where
  | null
  | bool (b : Bool)
  | num (n : Int)
  | str (s : Str)
  | arr (elems : List Json)
  | obj (fields : List (Str × Json))

/-- Python truthiness of a JSON value. -/
def jsonTruthy : Json → Bool
  | .null => false
  | .bool b => b
  | .num n => n != 0
  | .str s => !s.isEmpty
  | .arr xs => !xs.isEmpty
  | .obj fs => !fs.isEmpty

/-- Python `value.get(key)` on a `json.loads` result: `None` when the key
is absent, `AttributeError` when the value is not a dict. -/
def jsonGet (j : Json) (key : Str) : Except PyExc (Option Json) :=
  match j with
  | .obj fields => .ok (fields.lookup key)
  | _ => .error .attributeError

/-- Python `value.get(key, default)` on a `json.loads` result. -/
def jsonGetD (j : Json) (key : Str) (dflt : Json) : Except PyExc Json :=
  match jsonGet j key with
  | .error e => .error e
  | .ok (some v) => .ok v
  | .ok none => .ok dflt

/-- The `Package` dataclass of `core.py`. -/
structure Package where
  name : Str
  project_version : Str
  installed_version : Option Str := none
  newest_version : Option Str := none
deriving DecidableEq, Repr

/-- Python truthiness of an optional string field (`None` and the empty
string are falsy). -/
def truthyOpt : Option Str → Bool
  | none => false
  | some s => !s.isEmpty

/-- Observable outcome of `display_package_information`: either the single
explanatory line that replaces the tables, or the report with its two
partitions (out-of-date first, then can-be-bumped, each in ledger order). -/
inductive DisplayResult where
  | noInstalledVersionsDetected
  | report (packages_out_of_date packages_can_be_bumped : List Package)
deriving DecidableEq, Repr

/-- The partition loop of `display_package_information` in `core.py`
(lines 54–64): returns `(packages_out_of_date, packages_can_be_bumped)`. -/
def classifyPackages (require_newest_version : Bool) : List Package → List Package × List Package
  | [] => ([], [])
  | p :: ps =>
    let rest := classifyPackages require_newest_version ps
    if !truthyOpt p.installed_version then rest
    else
      let bumped := p.installed_version != some p.project_version
      let newestDiffers0 := p.newest_version != some p.project_version
      let newestDiffers :=
        if require_newest_version then truthyOpt p.newest_version && newestDiffers0
        else newestDiffers0
      ((if newestDiffers then p :: rest.1 else rest.1),
       (if bumped then p :: rest.2 else rest.2))

/-- Python `any(package.installed_version for package in packages)`. -/
def anyInstalledTruthy (packages : List Package) : Bool :=
  packages.any fun p => truthyOpt p.installed_version

/-- The function `display_package_information` of `core.py`, with the
rendering reduced to its observable structure: the early
"no installed versions detected" return, or the two partitions. -/
def display_package_information (require_newest_version : Bool)
    (packages : List Package) : DisplayResult :=
  if !anyInstalledTruthy packages then .noInstalledVersionsDetected
  else
    let parts := classifyPackages require_newest_version packages
    .report parts.1 parts.2

/-- The dedup loop of `UvProject.dependency_listings` (`uv.py` lines
73–80), carrying the `seen` set: keep each listing the first time its
verbatim text occurs. -/
def dedupFirstGo (seen : List Str) : List Str → List Str
  | [] => []
  | x :: xs => if x ∈ seen then dedupFirstGo seen xs else x :: dedupFirstGo (x :: seen) xs

/-- The method `UvProject.dependency_listings`, applied to the flattened
sequence of raw listings collected from the root manifest and the
existing workspace members (those TOML file reads are environment
inputs; the dedup step is the part implemented here). -/
def UvProject.dependency_listings (raw : List Str) : List Str :=
  dedupFirstGo [] raw

/-- The comprehension body of `UvProject.packages`: one `Package` per
listing, stopping at the first listing whose parse raises. -/
def uvBuildPackages : List Str → Except PyExc (List Package)
  | [] => .ok []
  | spec :: rest => do
    let nv ← split_package_from_version spec
    let ps ← uvBuildPackages rest
    pure ({ name := nv.1, project_version := nv.2 } :: ps)

/-- The method `UvProject.packages`: one `Package` per deduplicated
listing, via `split_package_from_version` (whose exceptions propagate). -/
def UvProject.packages (raw : List Str) : Except PyExc (List Package) :=
  uvBuildPackages (UvProject.dependency_listings raw)

/-- One step of Python `dict.update` item insertion: replace the value in
place if the key exists (keeping its original position), else append. -/
def dictUpdate (d : List (Str × Str)) (kv : Str × Str) : List (Str × Str) :=
  if d.any (fun e => e.1 == kv.1) then
    d.map (fun e => if e.1 == kv.1 then (e.1, kv.2) else e)
  else d ++ [kv]

/-- The method `NpmProject.dependency_specs`: merge the four dependency
sections of `package.json` (environment inputs, in the source order
`dependencies`, `devDependencies`, `peerDependencies`,
`optionalDependencies`; an absent section is the empty dict) into one
insertion-ordered mapping; a later section overwrites an earlier one's
value for the same name. -/
def NpmProject.dependency_specs (sections : List (List (Str × Str))) : List (Str × Str) :=
  sections.foldl (fun acc sec => sec.foldl dictUpdate acc) []

/-- Python `spec.startswith(('git+', 'file:', 'http:', 'https:'))`. -/
def startsWithNonRegistry (spec : Str) : Bool :=
  "git+".toList.isPrefixOf spec ||
  "file:".toList.isPrefixOf spec ||
  "http:".toList.isPrefixOf spec ||
  "https:".toList.isPrefixOf spec

/-- The conversion loop of `NpmProject.packages`: reject non-registry
specs (raising `UnsupportedPackageTypeError`, which aborts the whole
conversion), else normalize each spec into a `Package`. -/
def npmBuildPackages : List (Str × Str) → Except PyExc (List Package)
  | [] => .ok []
  | kv :: rest =>
    if startsWithNonRegistry kv.2 then .error .unsupportedPackageTypeError
    else do
      let ps ← npmBuildPackages rest
      pure ({ name := kv.1, project_version := _normalize_spec kv.2 } :: ps)

/-- The method `NpmProject.packages`: the conversion loop applied to the
merged dependency mapping. -/
def NpmProject.packages (sections : List (List (Str × Str))) : Except PyExc (List Package) :=
  npmBuildPackages (NpmProject.dependency_specs sections)

/-- Update the `installed_version` of the package designated by
`package_map.get(name)`: the comprehension `{p.name: p for p in packages}`
keeps, for each name, the last package object carrying it, so the update
hits the last list entry with that name, and does nothing when the name
is unknown (the `if package:` guard). -/
def updateLastByName (name : Str) (v : Option Str) : List Package → List Package
  | [] => []
  | p :: ps =>
    if ps.any (fun q => q.name == name) then p :: updateLastByName name v ps
    else if p.name == name then { p with installed_version := v } :: ps
    else p :: ps

/-- Python `str.splitlines()` (newline-only model): split on a newline,
without a trailing empty piece for a trailing newline, and the empty list
for the empty string. -/
def splitlines (s : Str) : List Str :=
  match s with
  | [] => []
  | _ =>
    let parts := pySplit ['\n'] s
    if s.getLast? == some '\n' then parts.dropLast else parts

/-- The stdout-processing loop of `set_installed_versions_uv` for the
primary `uv export` command (`uv.py` lines 116–128): skip `#` comment
lines, keep the text before `';'`, strip it, require `'=='`, then
`name, version = cleaned.split('==')` — which raises `ValueError` when
the split does not yield exactly two parts. -/
def parseExportLines (packages : List Package) (stdout : Str) : Except PyExc (List Package) :=
  (splitlines stdout).foldlM (fun ps line =>
    if (['#'] : Str).isPrefixOf line then .ok ps
    else
      let cleaned := stripStr (line.takeWhile (· ≠ ';'))
      if !containsSub ['=', '='] cleaned then .ok ps
      else
        match pySplit ['=', '='] cleaned with
        | [name, version] => .ok (updateLastByName name (some version) ps)
        | _ => .error .valueError) packages

/-- Python `for info in value:` over a `json.loads` result: lists yield
their elements, dicts their keys, strings their characters (as
one-character strings); other values raise `TypeError`. -/
def jsonIterate : Json → Except PyExc (List Json)
  | .arr xs => .ok xs
  | .obj fields => .ok (fields.map fun kv => Json.str kv.1)
  | .str s => .ok (s.map fun c => Json.str [c])
  | _ => .error .typeError

/-- Store a JSON value into the `str | None`-annotated version fields of
`Package`: a JSON string is kept; a missing key (`None`) or a value
outside the dataclass's annotated type maps to `none`. -/
def jsonAsVersion : Option Json → Option Str
  | some (.str s) => some s
  | _ => none

/-- The body processing one successfully decoded fallback payload inside
`set_installed_versions_uv` (`uv.py` lines 156–164): iterate the decoded
value, read `name` and `version` from each entry (raising
`AttributeError` on a non-dict entry), skip falsy ones, and update the
matching package (a non-string name never matches the string-keyed
`package_map`). -/
def applyFallbackData (packages : List Package) (data : Json) : Except PyExc (List Package) := do
  let infos ← jsonIterate data
  infos.foldlM (fun ps info => do
    let name ← jsonGet info "name".toList
    let version ← jsonGet info "version".toList
    if !(name.map jsonTruthy).getD false || !(version.map jsonTruthy).getD false then pure ps
    else
      match name with
      | some (.str n) => pure (updateLastByName n (jsonAsVersion version) ps)
      | _ => pure ps) packages

/-- The fallback-command loop of `set_installed_versions_uv` (`uv.py`
lines 135–170).  Each list element models one fallback command's outcome:
`.error` is a subprocess failure and `.ok (.error _)` a `json.loads`
failure, both caught by `continue`; after a successfully applied payload
the function returns as soon as any installed version is known. -/
def runFallbacks (packages : List Package) :
    List (Except Unit (Except Unit Json)) → Except PyExc (List Package)
  | [] => .ok packages
  | fb :: rest =>
    match fb with
    | .error _ => runFallbacks packages rest
    | .ok (.error _) => runFallbacks packages rest
    | .ok (.ok data) => do
      let ps ← applyFallbackData packages data
      if anyInstalledTruthy ps then pure ps else runFallbacks ps rest

/-- The function `set_installed_versions_uv` of `uv.py`.  `uvExport`
models the primary `uv export` invocation (`.error` = caught subprocess
failure, skipping the whole processing loop); `fallbacks` models the two
fallback list commands, tried only when no installed version is known. -/
def set_installed_versions_uv (uvExport : Except Unit Str)
    (fallbacks : List (Except Unit (Except Unit Json)))
    (packages : List Package) : Except PyExc (List Package) := do
  let ps ←
    match uvExport with
    | .error _ => pure packages
    | .ok stdout => parseExportLines packages stdout
  if anyInstalledTruthy ps then pure ps
  else runFallbacks ps fallbacks

/-- The function `set_newest_versions_uv` of `uv.py`: one
`uvx pip index versions <name>` invocation per package (`query` maps a
package name to that invocation's outcome). -/
def set_newest_versions_uv (query : Str → Except Unit Str)
    (packages : List Package) : List Package :=
  packages.map fun p =>
    match query p.name with
    | .error _ => p
    | .ok stdout =>
      let lines := splitlines stdout
      if lines.length < 2 then p
      else
        match lines.get? 1 with
        | none => p
        | some line1 =>
          if !containsSub "Available versions:".toList line1 then p
          else
            match pySplit [','] (stripStr (pyReplace "Available versions:".toList [] line1)) with
            | v0 :: _ => { p with newest_version := some (stripStr v0) }
            | [] => p

/-- The function `set_installed_versions_npm` of `npm.py`.  `npmLs`
models the `npm ls --depth=0 --json` invocation: `.error` is a caught
subprocess failure (early return); `.ok (.error _)` means the captured
stdout was not valid JSON, in which case `json.loads` raises
`JSONDecodeError` outside any try block. -/
def set_installed_versions_npm (npmLs : Except Unit (Except Unit Json))
    (packages : List Package) : Except PyExc (List Package) :=
  match npmLs with
  | .error _ => .ok packages
  | .ok (.error _) => .error .jsonDecodeError
  | .ok (.ok data) => do
    let installed ← jsonGetD data "dependencies".toList (Json.obj [])
    match installed with
    | .obj fields =>
      fields.foldlM (fun ps kv =>
        if ps.any (fun q => q.name == kv.1) then do
          let version ← jsonGet kv.2 "version".toList
          pure (updateLastByName kv.1 (jsonAsVersion version) ps)
        else pure ps) packages
    | _ => .error .attributeError

/-- The function `set_newest_versions_npm` of `npm.py`: one
`npm view <name> version` invocation per package. -/
def set_newest_versions_npm (query : Str → Except Unit Str)
    (packages : List Package) : List Package :=
  packages.map fun p =>
    match query p.name with
    | .error _ => p
    | .ok stdout => { p with newest_version := some (stripStr stdout) }

/-- The `--kind` choice of the CLI. -/
inductive ProjectKind where
  | uv
  | npm
deriving DecidableEq, Repr

/-- The environment of one CLI run: the parsed command line plus all
external inputs (manifest reads and subprocess outcomes). -/
structure CliEnv where
  kind : ProjectKind
  /-- raw listings collected from the `pyproject.toml` files (`.error` =
  root `pyproject.toml` absent, the caught `FileNotFoundError`). -/
  uvListings : Except Unit (List Str)
  uvExport : Except Unit Str
  uvFallbacks : List (Except Unit (Except Unit Json))
  uvNewestQuery : Str → Except Unit Str
  /-- the four dependency sections of `package.json` (`.error` =
  `package.json` absent). -/
  npmSections : Except Unit (List (List (Str × Str)))
  npmLs : Except Unit (Except Unit Json)
  npmNewestQuery : Str → Except Unit Str

/-- The function `main` of `__main__.py`: `.ok code` is a normal return
with that exit code, `.error e` an uncaught exception aborting the
process.  Only `FileNotFoundError` is caught (mapped to exit code 2); the
`validate_package_extras` / `return 3` block is commented out in the
source, and the npm branch catches nothing besides `FileNotFoundError`.
(Namespaced because Lean reserves the bare name `main`.) -/
def Main.main (env : CliEnv) : Except PyExc Nat :=
  match env.kind with
  | .uv =>
    match env.uvListings with
    | .error _ => .ok 2
    | .ok raw =>
      match UvProject.packages raw with
      | .error e => .error e
      | .ok packages => do
        let packages ← set_installed_versions_uv env.uvExport env.uvFallbacks packages
        let packages := set_newest_versions_uv env.uvNewestQuery packages
        let _ := display_package_information true packages
        pure 0
  | .npm =>
    match env.npmSections with
    | .error _ => .ok 2
    | .ok sections =>
      match NpmProject.packages sections with
      | .error e => .error e
      | .ok packages => do
        let packages ← set_installed_versions_npm env.npmLs packages
        let packages := set_newest_versions_npm env.npmNewestQuery packages
        let _ := display_package_information true packages
        pure 0

/-- The membership condition of `packages_can_be_bumped` read off the
partition loop: a known installed version differing from the declared
one by string inequality. -/
def bumpCond (p : Package) : Bool :=
  truthyOpt p.installed_version && (p.installed_version != some p.project_version)

/-- The membership condition of `packages_out_of_date` read off the
partition loop, parametrised by the `require_newest_version` flag. -/
def oodCond (require_newest_version : Bool) (p : Package) : Bool :=
  truthyOpt p.installed_version &&
    (if require_newest_version then
      truthyOpt p.newest_version && (p.newest_version != some p.project_version)
    else p.newest_version != some p.project_version)

/-- Sample package of the spec's worked scenario: declared `1.0`,
installed `1.1`, latest `1.1`. -/
def pkgX : Package :=
  { name := "x".toList, project_version := "1.0".toList,
    installed_version := some "1.1".toList, newest_version := some "1.1".toList }

/-- Sample package whose installed version was filled with the empty
string. -/
def pkgEmptyInstalled : Package :=
  { name := "x".toList, project_version := "1.0".toList,
    installed_version := some [], newest_version := none }

/-- Concrete run: an npm project whose merged specs contain a `git+`
locator; every external query fails. -/
def envNpmGit : CliEnv :=
  { kind := .npm
    uvListings := .error ()
    uvExport := .error ()
    uvFallbacks := []
    uvNewestQuery := fun _ => .error ()
    npmSections := .ok [[("a".toList, "git+ssh://example".toList)]]
    npmLs := .error ()
    npmNewestQuery := fun _ => .error () }

/-- Concrete run: a uv project declaring the extras dependency
`foo[bar]>=1`; every external query fails. -/
def envUvExtras : CliEnv :=
  { kind := .uv
    uvListings := .ok ["foo[bar]>=1".toList]
    uvExport := .error ()
    uvFallbacks := [.error (), .error ()]
    uvNewestQuery := fun _ => .error ()
    npmSections := .error ()
    npmLs := .error ()
    npmNewestQuery := fun _ => .error () }

/-- Concrete run: a uv project whose root `pyproject.toml` is absent. -/
def envUvMissingManifest : CliEnv :=
  { kind := .uv
    uvListings := .error ()
    uvExport := .error ()
    uvFallbacks := []
    uvNewestQuery := fun _ => .error ()
    npmSections := .error ()
    npmLs := .error ()
    npmNewestQuery := fun _ => .error () }

theorem isPrefixOf_append_drop {pat s : Str} (h : pat.isPrefixOf s) :
    pat ++ s.drop pat.length = s := by
  obtain ⟨t, ht⟩ := List.isPrefixOf_iff_prefix.mp h
  subst ht
  rw [List.drop_left]

theorem splitOnce_eq_append (pat : Str) :
    ∀ {s b a : Str}, splitOnce pat s = some (b, a) → s = b ++ pat ++ a := by
  intro s
  induction s with
  | nil => intro b a h; simp [splitOnce] at h
  | cons c cs ih =>
    intro b a h
    by_cases hp : pat.isPrefixOf (c :: cs)
    · simp only [splitOnce, if_pos hp, Option.some.injEq, Prod.mk.injEq] at h
      obtain ⟨hb, ha⟩ := h
      subst hb
      subst ha
      simpa using (isPrefixOf_append_drop hp).symm
    · simp only [splitOnce, if_neg hp, Option.map_eq_some'] at h
      obtain ⟨⟨b', a'⟩, hsp, hf⟩ := h
      obtain ⟨hb, ha⟩ := Prod.mk.injEq .. |>.mp hf
      subst hb
      subst ha
      have := ih hsp
      simp [this]

theorem pySplitFuel_ne_nil (pat : Str) (fuel : Nat) (s : Str) :
    pySplitFuel pat fuel s ≠ [] := by
  cases fuel with
  | zero => simp [pySplitFuel]
  | succ n => cases h : splitOnce pat s <;> simp [pySplitFuel, h]

theorem joinWith_cons (pat b : Str) (rest : List Str) (h : rest ≠ []) :
    joinWith pat (b :: rest) = b ++ pat ++ joinWith pat rest := by
  cases rest with
  | nil => exact absurd rfl h
  | cons y ys => rfl

theorem joinWith_pySplitFuel (pat : Str) :
    ∀ fuel s, joinWith pat (pySplitFuel pat fuel s) = s := by
  intro fuel
  induction fuel with
  | zero => intro s; rfl
  | succ n ih =>
    intro s
    cases h : splitOnce pat s with
    | none => simp [pySplitFuel, h, joinWith]
    | some ba =>
      obtain ⟨b, a⟩ := ba
      have hs := splitOnce_eq_append pat h
      simp only [pySplitFuel, h]
      rw [joinWith_cons _ _ _ (pySplitFuel_ne_nil pat n a), ih a]
      exact hs.symm

theorem joinWith_pySplit (pat s : Str) : joinWith pat (pySplit pat s) = s := by
  unfold pySplit
  by_cases hp : pat = []
  · simp only [if_pos hp]; rfl
  · simp only [if_neg hp]; exact joinWith_pySplitFuel pat s.length s

theorem pySplit_two {pat s b a : Str} (h : pySplit pat s = [b, a]) :
    s = b ++ pat ++ a := by
  have hj := joinWith_pySplit pat s
  rw [h] at hj
  have hz : joinWith pat [b, a] = b ++ pat ++ a := rfl
  rw [hz] at hj
  exact hj.symm

/-- C4 (amended): for every listing whose pre-comma portion contains a
recognized operator and splits into exactly two parts at the selected
operator, `split_package_from_version` returns the text before the
operator as the name and the text after it as the version, both verbatim
(no whitespace trimming), and the recombination name+operator+version
equals the pre-comma portion of the input exactly as written. -/
theorem parse_recombines_verbatim (listing op b a : Str)
    (hop : selectOp (preComma listing) = some op)
    (hsp : pySplit op (preComma listing) = [b, a]) :
    split_package_from_version listing = .ok (b, a) ∧
      b ++ op ++ a = preComma listing := by
  constructor
  · simp only [split_package_from_version, hop, hsp]
  · exact (pySplit_two hsp).symm

/-- C4 counterexample: the claim's trimming clause is false.  On the
listing `"a >= 1"` the parser returns name `"a "` and version `" 1"`
with their surrounding whitespace intact, and the recombination equals
the pre-comma portion verbatim, not with its whitespace stripped. -/
theorem parse_does_not_trim :
    split_package_from_version "a >= 1".toList = .ok ("a ".toList, " 1".toList) ∧
      " 1".toList ≠ stripStr " 1".toList ∧
      "a ".toList ++ ">=".toList ++ " 1".toList ≠
        (preComma "a >= 1".toList).filter (fun c => !isSpaceChar c) :=
  ⟨by decide, by decide, by decide⟩

/-- Witness for `parse_recombines_verbatim` at the listing `"a>=1"`. -/
theorem parse_recombines_verbatim_witness :
    split_package_from_version "a>=1".toList = .ok ("a".toList, "1".toList) ∧
      "a".toList ++ ">=".toList ++ "1".toList = preComma "a>=1".toList :=
  parse_recombines_verbatim "a>=1".toList ">=".toList "a".toList "1".toList
    (by decide) (by decide)

/-- C6 (amended): the operator test order of `split_package_from_version`
is `>=`, `<=`, `==`, `<`, `>` — the bare `<` is tested **before** the
bare `>` — so a pre-comma portion containing both bare operators (and no
two-character operator) is split on `<`; and when the selected operator
occurs more than once the `split` yields more than two parts and the
function raises `ValueError` instead of splitting at the first
occurrence. -/
theorem operator_priority_lt_before_gt :
    (∀ listing : Str,
      containsSub ['>', '='] (preComma listing) = false →
      containsSub ['<', '='] (preComma listing) = false →
      containsSub ['=', '='] (preComma listing) = false →
      containsSub ['<'] (preComma listing) = true →
      containsSub ['>'] (preComma listing) = true →
      selectOp (preComma listing) = some ['<']) ∧
    (∀ (listing op : Str), selectOp (preComma listing) = some op →
      (pySplit op (preComma listing)).length ≠ 2 →
      split_package_from_version listing = .error .valueError) := by
  constructor
  · intro listing h1 h2 h3 h4 _h5
    simp [selectOp, h1, h2, h3, h4]
  · intro listing op hop hlen
    simp only [split_package_from_version, hop]
    cases hps : pySplit op (preComma listing) with
    | nil => rfl
    | cons b t =>
      cases t with
      | nil => rfl
      | cons a t2 =>
        cases t2 with
        | nil => exact absurd (by rw [hps]; rfl) hlen
        | cons c t3 => rfl

/-- C6 counterexample: on `"a>1<2"` (both bare operators present, no
two-character operator) the code splits on `<`, yielding
`("a>1", "2")` rather than the claimed `("a", "1<2")`; and on
`"a==1==2"` (selected operator occurring twice) it raises `ValueError`
instead of splitting at the first occurrence. -/
theorem operator_priority_counterexample :
    split_package_from_version "a>1<2".toList = .ok ("a>1".toList, "2".toList) ∧
      (Except.ok (("a>1".toList : Str), ("2".toList : Str)) : Except PyExc (Str × Str)) ≠
        .ok ("a".toList, "1<2".toList) ∧
      split_package_from_version "a==1==2".toList = .error .valueError :=
  ⟨by decide, by decide, by decide⟩

/-- Witness for `operator_priority_lt_before_gt` at `"a>1<2"` and
`"a==1==2"`. -/
theorem operator_priority_witness :
    selectOp (preComma "a>1<2".toList) = some ['<'] ∧
      split_package_from_version "a==1==2".toList = .error .valueError :=
  ⟨operator_priority_lt_before_gt.1 "a>1<2".toList (by decide) (by decide) (by decide)
      (by decide) (by decide),
    operator_priority_lt_before_gt.2 "a==1==2".toList ['=', '='] (by decide) (by decide)⟩

/-- C9: a listing whose pre-comma portion contains none of the
recognized operators makes `split_package_from_version` raise
`UnknownPackageVersionSchemeError`. -/
theorem parse_no_operator_fails (listing : Str)
    (h1 : containsSub ['>', '='] (preComma listing) = false)
    (h2 : containsSub ['<', '='] (preComma listing) = false)
    (h3 : containsSub ['=', '='] (preComma listing) = false)
    (h4 : containsSub ['<'] (preComma listing) = false)
    (h5 : containsSub ['>'] (preComma listing) = false) :
    split_package_from_version listing = .error .unknownPackageVersionSchemeError := by
  simp [split_package_from_version, selectOp, h1, h2, h3, h4, h5]

/-- Witness for `parse_no_operator_fails` at the bare name `"foo"`. -/
theorem parse_no_operator_fails_witness :
    split_package_from_version "foo".toList = .error .unknownPackageVersionSchemeError :=
  parse_no_operator_fails "foo".toList (by decide) (by decide) (by decide) (by decide) (by decide)

/-- C7: `_normalize_spec` strips exactly the first matching marker of the
ordered set `^`, `~`, `>=`, `<=`, `>`, `<`, `=` — two-character markers
tried before their one-character prefixes — from the start of the spec
and returns the remainder verbatim; a spec starting with no marker is
returned unchanged. -/
theorem normalize_spec_marker_table :
    (∀ r : Str, _normalize_spec ('^' :: r) = r) ∧
    (∀ r : Str, _normalize_spec ('~' :: r) = r) ∧
    (∀ r : Str, _normalize_spec ('>' :: '=' :: r) = r) ∧
    (∀ r : Str, _normalize_spec ('<' :: '=' :: r) = r) ∧
    (∀ r : Str, r.head? ≠ some '=' → _normalize_spec ('>' :: r) = r) ∧
    (∀ r : Str, r.head? ≠ some '=' → _normalize_spec ('<' :: r) = r) ∧
    (∀ r : Str, _normalize_spec ('=' :: r) = r) ∧
    (∀ s : Str, s.head? ≠ some '^' → s.head? ≠ some '~' → s.head? ≠ some '>' →
      s.head? ≠ some '<' → s.head? ≠ some '=' → _normalize_spec s = s) := by
  refine ⟨?_, ?_, ?_, ?_, ?_, ?_, ?_, ?_⟩
  · intro r; simp [_normalize_spec, List.isPrefixOf]
  · intro r; simp [_normalize_spec, List.isPrefixOf]
  · intro r; simp [_normalize_spec, List.isPrefixOf]
  · intro r; simp [_normalize_spec, List.isPrefixOf]
  · intro r h
    cases r with
    | nil => simp [_normalize_spec, List.isPrefixOf]
    | cons c cs =>
      simp only [List.head?, ne_eq, Option.some.injEq] at h
      simp [_normalize_spec, List.isPrefixOf, Ne.symm h]
  · intro r h
    cases r with
    | nil => simp [_normalize_spec, List.isPrefixOf]
    | cons c cs =>
      simp only [List.head?, ne_eq, Option.some.injEq] at h
      simp [_normalize_spec, List.isPrefixOf, Ne.symm h]
  · intro r; simp [_normalize_spec, List.isPrefixOf]
  · intro s h1 h2 h3 h4 h5
    cases s with
    | nil => simp [_normalize_spec, List.isPrefixOf]
    | cons c cs =>
      simp only [List.head?, ne_eq, Option.some.injEq] at h1 h2 h3 h4 h5
      simp [_normalize_spec, List.isPrefixOf, Ne.symm h1, Ne.symm h2, Ne.symm h3, Ne.symm h4,
        Ne.symm h5]

/-- Witness for `normalize_spec_marker_table`: the spec's three worked
examples plus a marker whose one-character prefix must not fire first. -/
theorem normalize_spec_marker_table_witness :
    _normalize_spec "^1.2.3".toList = "1.2.3".toList ∧
      _normalize_spec "~1.2.3".toList = "1.2.3".toList ∧
      _normalize_spec ('>' :: '=' :: "1.2".toList) = "1.2".toList ∧
      _normalize_spec "1.2.3".toList = "1.2.3".toList ∧
      _normalize_spec ('>' :: "1.2".toList) = "1.2".toList :=
  ⟨normalize_spec_marker_table.1 "1.2.3".toList,
    normalize_spec_marker_table.2.1 "1.2.3".toList,
    normalize_spec_marker_table.2.2.1 "1.2".toList,
    normalize_spec_marker_table.2.2.2.2.2.2.2 "1.2.3".toList (by decide) (by decide) (by decide)
      (by decide) (by decide),
    normalize_spec_marker_table.2.2.2.2.1 "1.2".toList (by decide)⟩

theorem dedupFirstGo_congr (l : List Str) :
    ∀ s₁ s₂ : List Str, (∀ y, y ∈ s₁ ↔ y ∈ s₂) → dedupFirstGo s₁ l = dedupFirstGo s₂ l := by
  induction l with
  | nil => intro s₁ s₂ _; rfl
  | cons x xs ih =>
    intro s₁ s₂ h
    by_cases hx : x ∈ s₁
    · have hx2 : x ∈ s₂ := (h x).mp hx
      simp [dedupFirstGo, hx, hx2, ih s₁ s₂ h]
    · have hx2 : x ∉ s₂ := fun hh => hx ((h x).mpr hh)
      simp only [dedupFirstGo, if_neg hx, if_neg hx2, List.cons.injEq, true_and]
      exact ih (x :: s₁) (x :: s₂) (by intro y; simp [List.mem_cons, h y])

theorem dedupFirstGo_filter (x : Str) :
    ∀ (l seen : List Str), x ∈ seen →
      dedupFirstGo seen l = dedupFirstGo seen (l.filter (fun y => y != x)) := by
  intro l
  induction l with
  | nil => intro seen _; rfl
  | cons y ys ih =>
    intro seen hx
    by_cases hyx : y = x
    · subst hyx
      simp only [List.filter_cons, bne_self_eq_false, if_neg, dedupFirstGo, if_pos hx]
      · exact ih seen hx
    · have hbne : (y != x) = true := bne_iff_ne.mpr hyx
      by_cases hy : y ∈ seen
      · simp only [List.filter_cons, hbne, if_pos, dedupFirstGo, if_pos hy]
        exact ih seen hx
      · simp only [List.filter_cons, hbne, if_pos, dedupFirstGo, if_neg hy, List.cons.injEq,
          true_and]
        exact ih (y :: seen) (List.mem_cons_of_mem y hx)

theorem dedupFirstGo_unseen :
    ∀ (l extra seen : List Str), (∀ y ∈ l, y ∉ extra) →
      dedupFirstGo (extra ++ seen) l = dedupFirstGo seen l := by
  intro l
  induction l with
  | nil => intro extra seen _; rfl
  | cons y ys ih =>
    intro extra seen h
    have hy : y ∉ extra := h y (List.mem_cons_self y ys)
    by_cases hys : y ∈ seen
    · have hmem : y ∈ extra ++ seen := List.mem_append_right _ hys
      simp only [dedupFirstGo, if_pos hmem, if_pos hys]
      exact ih extra seen (fun z hz => h z (List.mem_cons_of_mem y hz))
    · have hnotin : y ∉ extra ++ seen := by
        intro hc
        rcases List.mem_append.mp hc with h1 | h1
        · exact hy h1
        · exact hys h1
      simp only [dedupFirstGo, if_neg hnotin, if_neg hys, List.cons.injEq, true_and]
      have step1 : dedupFirstGo (y :: (extra ++ seen)) ys =
          dedupFirstGo (extra ++ (y :: seen)) ys := by
        apply dedupFirstGo_congr
        intro z
        simp only [List.mem_cons, List.mem_append]
        tauto
      rw [step1]
      exact ih extra (y :: seen) (fun z hz => h z (List.mem_cons_of_mem y hz))

theorem mem_dedupFirstGo (y : Str) :
    ∀ (l seen : List Str), y ∈ dedupFirstGo seen l ↔ y ∈ l ∧ y ∉ seen := by
  intro l
  induction l with
  | nil => intro seen; simp [dedupFirstGo]
  | cons x xs ih =>
    intro seen
    by_cases hx : x ∈ seen
    · rw [dedupFirstGo, if_pos hx, ih seen]
      constructor
      · rintro ⟨h1, h2⟩; exact ⟨List.mem_cons_of_mem x h1, h2⟩
      · rintro ⟨h1, h2⟩
        rcases List.mem_cons.mp h1 with rfl | h1
        · exact absurd hx h2
        · exact ⟨h1, h2⟩
    · rw [dedupFirstGo, if_neg hx]
      constructor
      · intro hmem
        rcases List.mem_cons.mp hmem with rfl | hmem
        · exact ⟨List.mem_cons_self y xs, hx⟩
        · obtain ⟨h1, h2⟩ := (ih (x :: seen)).mp hmem
          exact ⟨List.mem_cons_of_mem x h1, fun hs => h2 (List.mem_cons_of_mem x hs)⟩
      · rintro ⟨h1, h2⟩
        rcases List.mem_cons.mp h1 with rfl | h1
        · exact List.mem_cons_self y _
        · by_cases hyx : y = x
          · subst hyx; exact List.mem_cons_self y _
          · refine List.mem_cons_of_mem x ((ih (x :: seen)).mpr ⟨h1, ?_⟩)
            intro hc
            rcases List.mem_cons.mp hc with h3 | h3
            · exact hyx h3
            · exact h2 h3

theorem dedupFirstGo_sublist : ∀ (l seen : List Str), (dedupFirstGo seen l).Sublist l := by
  intro l
  induction l with
  | nil => intro seen; simp [dedupFirstGo]
  | cons x xs ih =>
    intro seen
    by_cases hx : x ∈ seen
    · rw [dedupFirstGo, if_pos hx]
      exact (ih seen).cons x
    · rw [dedupFirstGo, if_neg hx]
      exact (ih (x :: seen)).cons₂ x

theorem dedupFirstGo_nodup : ∀ (l seen : List Str), (dedupFirstGo seen l).Nodup := by
  intro l
  induction l with
  | nil => intro seen; simp [dedupFirstGo]
  | cons x xs ih =>
    intro seen
    by_cases hx : x ∈ seen
    · rw [dedupFirstGo, if_pos hx]; exact ih seen
    · rw [dedupFirstGo, if_neg hx]
      refine List.nodup_cons.mpr ⟨?_, ih (x :: seen)⟩
      intro hc
      exact ((mem_dedupFirstGo x xs (x :: seen)).mp hc).2 (List.mem_cons_self x seen)

/-- C8: `dependency_listings` deduplicates the flattened raw listings by
their verbatim text, keeping the first occurrence of each distinct string
and preserving first-seen order: the result is a duplicate-free sublist
of the input with exactly the input's members, satisfying the
first-occurrence recursion `dedup (x :: xs) = x :: dedup (xs minus later
copies of x)`; on `["a>=1", "b>=2", "a>=1"]` it returns
`["a>=1", "b>=2"]`. -/
theorem dependency_listings_first_occurrence :
    (∀ l : List Str, (UvProject.dependency_listings l).Sublist l) ∧
    (∀ l : List Str, (UvProject.dependency_listings l).Nodup) ∧
    (∀ (l : List Str) (y : Str), y ∈ UvProject.dependency_listings l ↔ y ∈ l) ∧
    (∀ (x : Str) (xs : List Str),
      UvProject.dependency_listings (x :: xs) =
        x :: UvProject.dependency_listings (xs.filter (fun y => y != x))) ∧
    UvProject.dependency_listings ["a>=1".toList, "b>=2".toList, "a>=1".toList] =
      ["a>=1".toList, "b>=2".toList] := by
  refine ⟨?_, ?_, ?_, ?_, by decide⟩
  · intro l; exact dedupFirstGo_sublist l []
  · intro l; exact dedupFirstGo_nodup l []
  · intro l y; simpa using mem_dedupFirstGo y l []
  · intro x xs
    show dedupFirstGo [] (x :: xs) = x :: dedupFirstGo [] (xs.filter (fun y => y != x))
    rw [dedupFirstGo, if_neg (List.not_mem_nil x)]
    congr 1
    rw [dedupFirstGo_filter x xs [x] (List.mem_singleton_self x)]
    have hyp : ∀ z ∈ xs.filter (fun y => y != x), z ∉ ([x] : List Str) := by
      intro z hz
      have h2 := (List.mem_filter.mp hz).2
      have h3 : z ≠ x := bne_iff_ne.mp h2
      simp [h3]
    have h := dedupFirstGo_unseen (xs.filter (fun y => y != x)) [x] [] hyp
    simpa using h


theorem dictUpdate_keys_nodup (d : List (Str × Str)) (kv : Str × Str)
    (h : (d.map Prod.fst).Nodup) : ((dictUpdate d kv).map Prod.fst).Nodup := by
  unfold dictUpdate
  by_cases hex : d.any (fun e => e.1 == kv.1)
  · rw [if_pos hex]
    have hkeys : (d.map (fun e => if e.1 == kv.1 then (e.1, kv.2) else e)).map Prod.fst =
        d.map Prod.fst := by
      rw [List.map_map]
      apply List.map_congr_left
      intro e _
      simp only [Function.comp_apply]
      split <;> rfl
    rw [hkeys]
    exact h
  · rw [if_neg hex, List.map_append]
    refine List.Nodup.append h (List.nodup_singleton _) ?_
    intro a ha hb
    rw [List.map_singleton, List.mem_singleton] at hb
    subst hb
    obtain ⟨e, he, hfst⟩ := List.mem_map.mp ha
    exact hex (List.any_eq_true.mpr ⟨e, he, by simp [hfst]⟩)

theorem foldl_dictUpdate_keys_nodup (sec : List (Str × Str)) :
    ∀ d : List (Str × Str), (d.map Prod.fst).Nodup →
      (((sec.foldl dictUpdate d).map Prod.fst)).Nodup := by
  induction sec with
  | nil => intro d h; exact h
  | cons kv rest ih => intro d h; exact ih _ (dictUpdate_keys_nodup d kv h)

theorem dependency_specs_keys_nodup (sections : List (List (Str × Str))) :
    ((NpmProject.dependency_specs sections).map Prod.fst).Nodup := by
  unfold NpmProject.dependency_specs
  suffices h : ∀ acc : List (Str × Str), (acc.map Prod.fst).Nodup →
      (((sections.foldl (fun a sec => sec.foldl dictUpdate a) acc).map Prod.fst)).Nodup by
    exact h [] (by simp)
  induction sections with
  | nil => intro acc h; exact h
  | cons sec rest ih => intro acc h; exact ih _ (foldl_dictUpdate_keys_nodup sec acc h)

theorem npmBuildPackages_names (l : List (Str × Str)) :
    ∀ ps : List Package, npmBuildPackages l = .ok ps →
      ps.map Package.name = l.map Prod.fst := by
  induction l with
  | nil =>
    intro ps h
    simp only [npmBuildPackages, Except.ok.injEq] at h
    subst h
    rfl
  | cons kv rest ih =>
    intro ps h
    unfold npmBuildPackages at h
    by_cases hs : startsWithNonRegistry kv.2
    · rw [if_pos hs] at h
      exact absurd h (by simp)
    · rw [if_neg hs] at h
      cases hr : npmBuildPackages rest with
      | error e => rw [hr] at h; exact absurd h (by simp [Bind.bind, Except.bind])
      | ok ps' =>
        rw [hr] at h
        simp only [Bind.bind, Except.bind, pure, Except.pure, Except.ok.injEq] at h
        subst h
        simp [ih ps' hr]

/-- C3 (amended): the one-Package-per-name invariant holds only for the
registry ecosystem, where the merged manifest mapping keys the ledger by
name: every successful `NpmProject.packages` run yields pairwise-distinct
names.  In the lockfile ecosystem deduplication is by verbatim listing
text, not by name, so two listings of the same package at different
constraints yield two ledger entries with the same name, as the run on
`["a>=1", "a>=2"]` exhibits. -/
theorem package_names_unique_registry_only :
    (∀ (sections : List (List (Str × Str))) (ps : List Package),
      NpmProject.packages sections = .ok ps → (ps.map Package.name).Nodup) ∧
    UvProject.packages ["a>=1".toList, "a>=2".toList] =
      .ok [{ name := "a".toList, project_version := "1".toList },
        { name := "a".toList, project_version := "2".toList }] := by
  constructor
  · intro sections ps h
    have hn := npmBuildPackages_names (NpmProject.dependency_specs sections) ps h
    rw [hn]
    exact dependency_specs_keys_nodup sections
  · decide

/-- C3 counterexample: a lockfile project listing `a>=1` and `a>=2`
produces two distinct `Package` entries bearing the same name, because
`dependency_listings` deduplicates by listing text, not by name. -/
theorem uv_duplicate_names_counterexample :
    UvProject.packages ["a>=1".toList, "a>=2".toList] =
      .ok [{ name := "a".toList, project_version := "1".toList },
        { name := "a".toList, project_version := "2".toList }] ∧
    ({ name := "a".toList, project_version := "1".toList } : Package) ≠
      { name := "a".toList, project_version := "2".toList } ∧
    ({ name := "a".toList, project_version := "1".toList } : Package).name =
      ({ name := "a".toList, project_version := "2".toList } : Package).name :=
  ⟨by decide, by decide, by decide⟩

/-- Witness for `package_names_unique_registry_only` on a one-entry
`package.json`. -/
theorem package_names_unique_registry_witness :
    (([{ name := "a".toList, project_version := "1.0.0".toList }] : List Package).map
      Package.name).Nodup :=
  package_names_unique_registry_only.1 [[("a".toList, "^1.0.0".toList)]]
    [{ name := "a".toList, project_version := "1.0.0".toList }] (by decide)

theorem classifyPackages_eq_filter (f : Bool) (ps : List Package) :
    classifyPackages f ps = (ps.filter (oodCond f), ps.filter bumpCond) := by
  induction ps with
  | nil => rfl
  | cons p ps ih =>
    cases htr : truthyOpt p.installed_version <;>
      simp [classifyPackages, htr, ih, List.filter_cons, bumpCond, oodCond]

/-- C5: under the required-present flag (as `main` always runs it), a
package with a known (truthy) installed version is placed in
`packages_can_be_bumped` iff its installed version differs from the
declared one by exact string inequality, and in `packages_out_of_date`
iff its newest version is known and differs from the declared one by
exact string inequality; a package without a known installed version is
in neither partition. -/
theorem classification_by_string_inequality :
    ∀ (packages : List Package) (p : Package),
      (p ∈ packages → truthyOpt p.installed_version = true →
        ((p ∈ (classifyPackages true packages).2 ↔
            p.installed_version ≠ some p.project_version) ∧
          (p ∈ (classifyPackages true packages).1 ↔
            (truthyOpt p.newest_version = true ∧
              p.newest_version ≠ some p.project_version)))) ∧
      (truthyOpt p.installed_version = false →
        p ∉ (classifyPackages true packages).1 ∧ p ∉ (classifyPackages true packages).2) := by
  intro packages p
  rw [classifyPackages_eq_filter]
  constructor
  · intro hmem htruthy
    constructor
    · simp [List.mem_filter, bumpCond, hmem, htruthy]
    · simp [List.mem_filter, oodCond, hmem, htruthy]
  · intro hfalse
    constructor
    · intro hc
      have hcond := (List.mem_filter.mp hc).2
      simp [oodCond, hfalse] at hcond
    · intro hc
      have hcond := (List.mem_filter.mp hc).2
      simp [bumpCond, hfalse] at hcond

/-- Witness for `classification_by_string_inequality`: the spec's
scenario declared `1.0`, installed `1.1`, latest `1.1` appears in both
partitions. -/
theorem classification_witness :
    pkgX ∈ (classifyPackages true [pkgX]).2 ∧ pkgX ∈ (classifyPackages true [pkgX]).1 := by
  have h := (classification_by_string_inequality [pkgX] pkgX).1
    (List.mem_singleton_self _) (by decide)
  exact ⟨h.1.mpr (by decide), h.2.mpr (by decide)⟩

/-- C10: a package whose installed version is the empty string is treated
exactly like one whose installed version is absent: the whole
`display_package_information` outcome is unchanged by replacing the empty
string with `None`, the package joins neither partition, and it does not
count toward the check that decides whether the single explanatory line
replaces the tables. -/
theorem empty_installed_like_absent (p : Package) (ps : List Package)
    (h : p.installed_version = some []) :
    display_package_information true (p :: ps) =
      display_package_information true ({ p with installed_version := none } :: ps) ∧
    anyInstalledTruthy (p :: ps) = anyInstalledTruthy ps ∧
    (∀ qs : List Package,
      p ∉ (classifyPackages true qs).1 ∧ p ∉ (classifyPackages true qs).2) := by
  have htr : truthyOpt p.installed_version = false := by rw [h]; rfl
  have h1 : anyInstalledTruthy (p :: ps) = anyInstalledTruthy ps := by
    simp [anyInstalledTruthy, htr]
  have h2 : anyInstalledTruthy ({ p with installed_version := none } :: ps) =
      anyInstalledTruthy ps := by
    simp [anyInstalledTruthy, truthyOpt]
  have h3 : classifyPackages true (p :: ps) = classifyPackages true ps := by
    simp [classifyPackages, htr]
  have h4 : classifyPackages true ({ p with installed_version := none } :: ps) =
      classifyPackages true ps := by
    simp [classifyPackages, truthyOpt]
  refine ⟨?_, h1, ?_⟩
  · unfold display_package_information
    rw [h1, h2, h3, h4]
  · intro qs
    rw [classifyPackages_eq_filter]
    constructor
    · intro hc
      have hcond := (List.mem_filter.mp hc).2
      simp [oodCond, htr] at hcond
    · intro hc
      have hcond := (List.mem_filter.mp hc).2
      simp [bumpCond, htr] at hcond

/-- Witness for `empty_installed_like_absent` on a concrete one-package
ledger. -/
theorem empty_installed_like_absent_witness :
    display_package_information true [pkgEmptyInstalled] =
      display_package_information true [{ pkgEmptyInstalled with installed_version := none }] ∧
    anyInstalledTruthy [pkgEmptyInstalled] = anyInstalledTruthy [] ∧
    pkgEmptyInstalled ∉ (classifyPackages true [pkgEmptyInstalled]).1 := by
  have h := empty_installed_like_absent pkgEmptyInstalled [] rfl
  exact ⟨h.1, h.2.1, (h.2.2 [pkgEmptyInstalled]).1⟩

theorem runFallbacks_all_fail (ps : List Package) :
    ∀ fbs : List (Except Unit (Except Unit Json)),
      (∀ fb ∈ fbs, fb = .error () ∨ fb = .ok (.error ())) → runFallbacks ps fbs = .ok ps := by
  intro fbs
  induction fbs with
  | nil => intro _; rfl
  | cons fb rest ih =>
    intro h
    have htail : ∀ fb2 ∈ rest, fb2 = .error () ∨ fb2 = .ok (.error ()) :=
      fun fb2 hm => h fb2 (List.mem_cons_of_mem fb hm)
    rcases h fb (List.mem_cons_self fb rest) with h1 | h1 <;> subst h1 <;>
      simpa [runFallbacks] using ih htail

/-- C1 (amended): subprocess-level failures of the bulk installed-version
queries are non-fatal and leave every `installed_version` absent —
`set_installed_versions_npm` returns the packages unchanged when
`npm ls` itself fails, and `set_installed_versions_uv` returns them
unchanged when `uv export` fails and every fallback command either fails
or yields undecodable JSON (whose decode error *is* caught there).  But
`set_installed_versions_npm` does **not** return normally when the
bulk-list command succeeds with stdout that is not valid JSON: the
`json.loads` call sits outside any `try` block and its `JSONDecodeError`
escapes the fill pass. -/
theorem installed_fill_subprocess_failures_nonfatal :
    (∀ ps : List Package, set_installed_versions_npm (.error ()) ps = .ok ps) ∧
    (∀ ps : List Package,
      set_installed_versions_npm (.ok (.error ())) ps = .error .jsonDecodeError) ∧
    (∀ (ps : List Package) (fbs : List (Except Unit (Except Unit Json))),
      (∀ fb ∈ fbs, fb = .error () ∨ fb = .ok (.error ())) →
      set_installed_versions_uv (.error ()) fbs ps = .ok ps) := by
  refine ⟨fun ps => rfl, fun ps => rfl, ?_⟩
  intro ps fbs h
  unfold set_installed_versions_uv
  by_cases ha : anyInstalledTruthy ps <;>
    simp [ha, Bind.bind, Except.bind, pure, Except.pure, runFallbacks_all_fail ps fbs h]

/-- C1 counterexample: when `npm ls` succeeds but its stdout is not valid
JSON, `set_installed_versions_npm` raises `JSONDecodeError` instead of
returning normally. -/
theorem npm_fill_raises_on_malformed_json :
    set_installed_versions_npm (.ok (.error ()))
        [{ name := "a".toList, project_version := "1.0".toList }] =
      .error .jsonDecodeError ∧
    (Except.error PyExc.jsonDecodeError : Except PyExc (List Package)) ≠
      .ok [{ name := "a".toList, project_version := "1.0".toList }] :=
  ⟨rfl, by decide⟩

/-- Witness for `installed_fill_subprocess_failures_nonfatal` on a
one-package ledger with every external command failing. -/
theorem installed_fill_nonfatal_witness :
    set_installed_versions_npm (.error ())
        [{ name := "a".toList, project_version := "1.0".toList }] =
      .ok [{ name := "a".toList, project_version := "1.0".toList }] ∧
    set_installed_versions_uv (.error ()) [.error (), .ok (.error ())]
        [{ name := "a".toList, project_version := "1.0".toList }] =
      .ok [{ name := "a".toList, project_version := "1.0".toList }] := by
  refine ⟨installed_fill_subprocess_failures_nonfatal.1 _, 
    installed_fill_subprocess_failures_nonfatal.2.2 _ [.error (), .ok (.error ())] ?_⟩
  intro fb hm
  rcases List.mem_cons.mp hm with rfl | hm2
  · exact Or.inl rfl
  · rcases List.mem_cons.mp hm2 with rfl | hm3
    · exact Or.inr rfl
    · cases hm3

theorem npmBuildPackages_has_bad (kv : Str × Str) (hbad : startsWithNonRegistry kv.2 = true) :
    ∀ l : List (Str × Str), kv ∈ l →
      npmBuildPackages l = .error .unsupportedPackageTypeError := by
  intro l
  induction l with
  | nil => intro h; cases h
  | cons kv0 rest ih =>
    intro h
    unfold npmBuildPackages
    by_cases hs : startsWithNonRegistry kv0.2
    · rw [if_pos hs]
    · rw [if_neg hs]
      rcases List.mem_cons.mp h with rfl | hmem
      · exact absurd hbad hs
      · rw [ih hmem]
        rfl

/-- C2 (amended): `main` never returns exit code 3.  A missing manifest
returns 2 and every normal return is 0 or 2; a registry-ecosystem spec
starting with `git+`, `file:`, `http:` or `https:` makes the run abort
with an uncaught `UnsupportedPackageTypeError` (stopping before any
report, but not with exit code 3, since `main` does not catch it); and
extras syntax in the lockfile ecosystem is not detected at all (the
`validate_package_extras` call is commented out), so such runs proceed
to a normal report. -/
theorem main_exit_codes :
    (∀ (env : CliEnv) (n : Nat), Main.main env = .ok n → n = 0 ∨ n = 2) ∧
    (∀ env : CliEnv, env.kind = .uv → env.uvListings = .error () → Main.main env = .ok 2) ∧
    (∀ env : CliEnv, env.kind = .npm → env.npmSections = .error () → Main.main env = .ok 2) ∧
    (∀ (env : CliEnv) (sections : List (List (Str × Str))) (kv : Str × Str),
      env.kind = .npm → env.npmSections = .ok sections →
      kv ∈ NpmProject.dependency_specs sections → startsWithNonRegistry kv.2 = true →
      Main.main env = .error .unsupportedPackageTypeError) := by
  refine ⟨?_, ?_, ?_, ?_⟩
  · intro env n h
    cases hk : env.kind
    · cases hl : env.uvListings with
      | error u =>
        simp only [Main.main, hk, hl, Except.ok.injEq] at h
        exact Or.inr h.symm
      | ok raw =>
        simp only [Main.main, hk, hl] at h
        cases hp : UvProject.packages raw with
        | error e =>
          simp only [hp] at h
          exact Except.noConfusion h
        | ok packages =>
          simp only [hp] at h
          cases hs : set_installed_versions_uv env.uvExport env.uvFallbacks packages <;>
            simp only [hs, Bind.bind, Except.bind, Functor.map, Except.map, pure, Except.pure,
              Except.ok.injEq] at h
          · exact Except.noConfusion h
          · exact Or.inl h.symm
    · cases hl : env.npmSections with
      | error u =>
        simp only [Main.main, hk, hl, Except.ok.injEq] at h
        exact Or.inr h.symm
      | ok sections =>
        simp only [Main.main, hk, hl] at h
        cases hp : NpmProject.packages sections with
        | error e =>
          simp only [hp] at h
          exact Except.noConfusion h
        | ok packages =>
          simp only [hp] at h
          cases hs : set_installed_versions_npm env.npmLs packages <;>
            simp only [hs, Bind.bind, Except.bind, Functor.map, Except.map, pure, Except.pure,
              Except.ok.injEq] at h
          · exact Except.noConfusion h
          · exact Or.inl h.symm
  · intro env hk hl
    unfold Main.main
    rw [hk, hl]
  · intro env hk hl
    unfold Main.main
    rw [hk, hl]
  · intro env sections kv hk hl hmem hbad
    have hpk : NpmProject.packages sections = .error .unsupportedPackageTypeError :=
      npmBuildPackages_has_bad kv hbad _ hmem
    simp only [Main.main, hk, hl, hpk]

/-- C2 counterexample: a registry run on a `git+` spec aborts with an
uncaught `UnsupportedPackageTypeError` rather than returning exit code
3, and a lockfile run on the extras listing `foo[bar]>=1` returns exit
code 0 rather than 3 — the `validate_package_extras` guard is commented
out in `__main__.py` and the npm branch catches only
`FileNotFoundError`. -/
theorem main_exit_code_counterexample :
    Main.main envNpmGit = .error .unsupportedPackageTypeError ∧
    Main.main envNpmGit ≠ .ok 3 ∧
    Main.main envUvExtras = .ok 0 ∧
    Main.main envUvExtras ≠ .ok 3 := by
  have h1 : Main.main envNpmGit = .error .unsupportedPackageTypeError := by decide
  have h2 : Main.main envUvExtras = .ok 0 := by decide
  refine ⟨h1, ?_, h2, ?_⟩
  · intro h
    rw [h1] at h
    exact Except.noConfusion h
  · intro h
    rw [h2] at h
    simp only [Except.ok.injEq] at h
    exact absurd h (by decide)

/-- Witness for `main_exit_codes` on concrete runs: a missing
`pyproject.toml`, a `git+` registry spec, and the normal extras run. -/
theorem main_exit_codes_witness :
    Main.main envUvMissingManifest = .ok 2 ∧
    Main.main envNpmGit = .error .unsupportedPackageTypeError ∧
    (0 = 0 ∨ 0 = 2) :=
  ⟨main_exit_codes.2.1 envUvMissingManifest rfl rfl,
    main_exit_codes.2.2.2 envNpmGit [[("a".toList, "git+ssh://example".toList)]]
      ("a".toList, "git+ssh://example".toList) rfl rfl (by decide) (by decide),
    main_exit_codes.1 envUvExtras 0 (by decide)⟩
